import Mathlib

/-!
Verification of the arbitrage detection and stake-allocation core of the
`Epl-arb-finder` repository (`src/app.py`, `src/notifier.py`).

Python floats are modelled as exact rationals (`ℚ`); the special float
values `inf` and `nan` that the sources create explicitly are modelled by
the inductive type `FV`, and a Python `ZeroDivisionError` is modelled by
`Option` (`none` = the call raises).  Python strings are modelled by `String`
with character-list based implementations of `lower`, `strip`, `replace`,
`startswith` and substring containment, matching Python's behaviour on the
ASCII data handled by this program.
-/

/-- Python `round(x)` with no `ndigits`: round half to even, on an exact rational. -/
def pyRoundInt (q : ℚ) : ℤ :=
  if q - (⌊q⌋ : ℚ) < 1/2 then ⌊q⌋
  else if 1/2 < q - (⌊q⌋ : ℚ) then ⌊q⌋ + 1
  else if ⌊q⌋ % 2 = 0 then ⌊q⌋ else ⌊q⌋ + 1

/-- Python `round(x, n)`: round half to even at `n` decimal places. -/
def pyRoundN (q : ℚ) (n : ℕ) : ℚ := (pyRoundInt (q * 10 ^ n) : ℚ) / 10 ^ n

/-- Python `sum(...)` over a list of rationals: a left fold starting at `0`. -/
def pySum (l : List ℚ) : ℚ := l.foldl (· + ·) 0

/-- Python `min(...)` over a nonempty list of rationals: keep the current value
unless a later element is strictly smaller. -/
def pyMinQ (l : List ℚ) : Option ℚ :=
  match l with
  | [] => none
  | h :: t => some (t.foldl (fun acc x => if x < acc then x else acc) h)

/-- Python `commission_map.get(book, 0.0)`: association-list lookup defaulting to `0`. -/
def dictGet (m : List (String × ℚ)) (k : String) : ℚ :=
  match m.find? (fun p => p.1 == k) with
  | some p => p.2
  | none => 0

/-- notifier.py lines 79–81, `implied_prob`:
`eff = odds * (1 - commission); return 1.0/eff if eff>0 else 1e9`. -/
def implied_prob (odds commission : ℚ) : ℚ :=
  let eff := odds * (1 - commission)
  if 0 < eff then 1 / eff else 1000000000

/-- The list `implieds` built identically by notifier.py
`compute_arbs_for_outcomes` (line 149) and `stake_plan` (line 155). -/
def notifier_implieds (outcomes : List (String × ℚ × String)) (cmap : List (String × ℚ)) :
    List ℚ :=
  outcomes.map fun t => implied_prob t.2.1 (dictGet cmap t.2.2)

/-- notifier.py lines 148–152, `compute_arbs_for_outcomes`: returns `(roi, margin)`
with `margin = 1 - sum(implieds)` and `roi = max(margin*100.0, 0.0)`.
The `min_roi_pct` parameter is unused in the source body and kept for fidelity. -/
def compute_arbs_for_outcomes (outcomes : List (String × ℚ × String)) (min_roi_pct : ℚ)
    (cmap : List (String × ℚ)) : ℚ × ℚ :=
  let margin := 1 - pySum (notifier_implieds outcomes cmap)
  (max (margin * 100) 0, margin)

/-- app.py line 311:
`implieds = [1.0/(o*(1-commission_map.get(b,0.0))) for (_,o,b) in best_outcomes]`.
This list comprehension has no guard; `none` models the `ZeroDivisionError`
Python raises when some `o*(1-c)` is exactly zero. -/
def app_implieds_inline : List (String × ℚ × String) → List (String × ℚ) → Option (List ℚ)
  | [], _ => some []
  | t :: rest, cmap =>
    let e := t.2.1 * (1 - dictGet cmap t.2.2)
    if e = 0 then none
    else
      match app_implieds_inline rest cmap with
      | none => none
      | some l => some (1 / e :: l)

/-- app.py lines 312–313: `margin = 1.0 - sum(implieds); roi_est = max(margin*100.0, 0.0)`,
returned as `(margin, roi_est)`; `none` when line 311 raises. -/
def app_margin_roi (best : List (String × ℚ × String)) (cmap : List (String × ℚ)) :
    Option (ℚ × ℚ) :=
  (app_implieds_inline best cmap).map fun l => (1 - pySum l, max ((1 - pySum l) * 100) 0)

/-- app.py lines 101–103, `round_stake`:
`if step <= 0: return round(value, 2)`; otherwise
`round(round(value / step) * step + 1e-9, 2)`. -/
def round_stake (value step : ℚ) : ℚ :=
  if step ≤ 0 then pyRoundN value 2
  else pyRoundN ((pyRoundInt (value / step) : ℚ) * step + 1 / 1000000000) 2

/-- Model of a Python float value as produced by this program: an exact
rational, or one of the special values `inf`, `-inf`, `nan` that the sources
create explicitly (`float("inf")` sentinels, `inf/inf`, `1 - inf`, ...). -/
inductive FV where
  | fin : ℚ → FV
  | pinf : FV
  | ninf : FV
  | nan : FV
deriving DecidableEq

/-- IEEE-style addition on modelled float values (finite values are exact). -/
def FV.add : FV → FV → FV
  | .fin a, .fin b => .fin (a + b)
  | .fin _, .pinf => .pinf
  | .pinf, .fin _ => .pinf
  | .fin _, .ninf => .ninf
  | .ninf, .fin _ => .ninf
  | .pinf, .pinf => .pinf
  | .ninf, .ninf => .ninf
  | .pinf, .ninf => .nan
  | .ninf, .pinf => .nan
  | .nan, _ => .nan
  | _, .nan => .nan

/-- IEEE-style negation on modelled float values. -/
def FV.neg : FV → FV
  | .fin a => .fin (-a)
  | .pinf => .ninf
  | .ninf => .pinf
  | .nan => .nan

/-- IEEE-style subtraction on modelled float values. -/
def FV.sub (a b : FV) : FV := FV.add a (FV.neg b)

/-- IEEE-style multiplication on modelled float values (`0 * inf = nan`). -/
def FV.mul : FV → FV → FV
  | .fin a, .fin b => .fin (a * b)
  | .fin a, .pinf => if 0 < a then .pinf else if a < 0 then .ninf else .nan
  | .pinf, .fin a => if 0 < a then .pinf else if a < 0 then .ninf else .nan
  | .fin a, .ninf => if 0 < a then .ninf else if a < 0 then .pinf else .nan
  | .ninf, .fin a => if 0 < a then .ninf else if a < 0 then .pinf else .nan
  | .pinf, .pinf => .pinf
  | .pinf, .ninf => .ninf
  | .ninf, .pinf => .ninf
  | .ninf, .ninf => .pinf
  | .nan, _ => .nan
  | _, .nan => .nan

/-- Python `<` on modelled float values: `nan` compares false with everything. -/
def FV.lt : FV → FV → Bool
  | .fin a, .fin b => a < b
  | .fin _, .pinf => true
  | .ninf, .fin _ => true
  | .ninf, .pinf => true
  | _, _ => false

/-- Python `x / d` on modelled float values for a strictly positive denominator
(`d` is `fin t` with `0 < t`, or `pinf`); the only use is app.py line 91 where
the denominator `total_ip` has just been checked `> 0`, so the division cannot
raise. `inf / inf = nan`, `x / inf = 0`. -/
def FV.divPos : FV → FV → FV
  | .fin a, .fin t => .fin (a / t)
  | .pinf, .fin _ => .pinf
  | .ninf, .fin _ => .ninf
  | .nan, .fin _ => .nan
  | _, .pinf => .fin 0
  | _, .ninf => .fin 0
  | _, .nan => .nan

/-- Python `x / b` for a nonzero rational denominator `b` (app.py line 97 divides
by `bankroll` only under the truthiness guard `if bankroll`, i.e. `bankroll ≠ 0`). -/
def FV.divnz : FV → ℚ → FV
  | .fin a, b => .fin (a / b)
  | .pinf, b => if 0 < b then .pinf else .ninf
  | .ninf, b => if 0 < b then .ninf else .pinf
  | .nan, _ => .nan

/-- Python `sum(...)` over modelled float values: left fold from `0`. -/
def FV.sum (l : List FV) : FV := l.foldl FV.add (.fin 0)

/-- Python `min(...)` over modelled float values, with Python's fold semantics
(the current value is kept when the comparison with `nan` is false). -/
def pyMinFV (l : List FV) : Option FV :=
  match l with
  | [] => none
  | h :: t => some (t.foldl (fun acc x => if FV.lt x acc then x else acc) h)

/-- app.py lines 72–78, `implied_prob` (a guarded helper the app defines but never
calls from its scan loop): `float("inf")` when the odds, or the commission-adjusted
effective odds, are at most `1e-9`; otherwise the reciprocal of the effective odds. -/
def app_implied_prob (decimal_odds commission : ℚ) : FV :=
  if decimal_odds ≤ 1 / 1000000000 then .pinf
  else if decimal_odds * (1 - commission) ≤ 1 / 1000000000 then .pinf
  else .fin (1 / (decimal_odds * (1 - commission)))

/-- app.py line 85, inside `stake_split_for_arbitrage`:
`ip = 1.0 / (odds * (1 - c)) if odds > 0 else float("inf")` with
`c = commission_map.get(book, 0.0)`.  `none` models the `ZeroDivisionError`
raised when `odds > 0` but `odds * (1 - c) == 0`. -/
def app_ip (cmap : List (String × ℚ)) (t : String × ℚ × String) : Option FV :=
  let c := dictGet cmap t.2.2
  if 0 < t.2.1 then
    if t.2.1 * (1 - c) = 0 then none else some (.fin (1 / (t.2.1 * (1 - c))))
  else some .pinf

/-- The list `implieds` built by app.py lines 83–86 (the first raised
`ZeroDivisionError` aborts the loop). -/
def app_implieds : List (String × ℚ × String) → List (String × ℚ) → Option (List FV)
  | [], _ => some []
  | t :: rest, cmap =>
    match app_ip cmap t, app_implieds rest cmap with
    | some ip, some l => some (ip :: l)
    | _, _ => none

/-- app.py line 91: `stake = bankroll * (ip / total_ip) if total_ip > 0 else 0.0`. -/
def app_stake (bankroll : ℚ) (total_ip ip : FV) : FV :=
  if FV.lt (.fin 0) total_ip then FV.mul (.fin bankroll) (FV.divPos ip total_ip)
  else .fin 0

/-- One row of the plan DataFrame built by app.py line 95 (`Outcome`, `Bookmaker`,
`Odds`, `Commission`, `Stake`, `Net Payout if Wins`).  `odds` and `commission` hold
the exact values; the source's display formatting of the `Odds` cell
(`round(odds,3)`) and of the `Commission` cell (a percent string) is not modelled,
and `stake`/`payout` are stored exactly as computed. -/
structure Row where
  outcome : String
  bookmaker : String
  odds : ℚ
  commission : ℚ
  stake : FV
  payout : FV
deriving DecidableEq

/-- app.py lines 90–95: build one plan row; `payout = stake * odds * (1 - c)`. -/
def app_row (bankroll : ℚ) (total_ip : FV) (cmap : List (String × ℚ))
    (t : String × ℚ × String) (ip : FV) : Row :=
  let c := dictGet cmap t.2.2
  let stake := app_stake bankroll total_ip ip
  { outcome := t.1, bookmaker := t.2.2, odds := t.2.1, commission := c,
    stake := stake, payout := FV.mul (FV.mul stake (.fin t.2.1)) (.fin (1 - c)) }

/-- app.py lines 80–99, `stake_split_for_arbitrage`: returns
`(rows, roi_pct, margin)` where `total_ip = sum(implieds)`,
`margin = 1.0 - total_ip`, `min_payout = min(payouts) if payouts else 0.0` and
`roi_pct = ((min_payout - bankroll) / bankroll * 100.0) if bankroll else 0.0`.
`none` models the `ZeroDivisionError` of line 85. -/
def stake_split_for_arbitrage (best : List (String × ℚ × String)) (bankroll : ℚ)
    (cmap : List (String × ℚ)) : Option (List Row × FV × FV) :=
  match app_implieds best cmap with
  | none => none
  | some implieds =>
    let total_ip := FV.sum implieds
    let margin := FV.sub (.fin 1) total_ip
    let rows := (best.zip implieds).map fun p => app_row bankroll total_ip cmap p.1 p.2
    let payouts := rows.map (·.payout)
    let min_payout := (pyMinFV payouts).getD (.fin 0)
    let roi_pct :=
      if bankroll ≠ 0 then
        FV.mul (FV.divnz (FV.sub min_payout (.fin bankroll)) bankroll) (.fin 100)
      else .fin 0
    some (rows, roi_pct, margin)

/-- notifier.py lines 154–166, `stake_plan`: proportional stakes rounded to the
nearest `round_step` (via Python `round`, plus the `1e-9` nudge and a final
round to 2 decimals), payouts from the **rounded** stakes, and
`eq = min(payouts) if payouts else 0.0`.  The sum `tot` is replaced by `1.0`
when falsy (`sum(implieds) or 1.0`).  `none` models the `ZeroDivisionError`
raised by `round(stake / round_step)` when `round_step == 0`. -/
def stake_plan_rows (bankroll tot round_step : ℚ) (cmap : List (String × ℚ)) :
    List ((String × ℚ × String) × ℚ) → Option (List ((String × String × ℚ × ℚ) × ℚ))
  | [] => some []
  | p :: rest =>
    if round_step = 0 then none
    else
      let stake := bankroll * (p.2 / tot)
      let stake := pyRoundN ((pyRoundInt (stake / round_step) : ℚ) * round_step
        + 1 / 1000000000) 2
      let payout := stake * p.1.2.1 * (1 - dictGet cmap p.1.2.2)
      match stake_plan_rows bankroll tot round_step cmap rest with
      | none => none
      | some l => some (((p.1.1, p.1.2.2, p.1.2.1, stake), payout) :: l)

/-- notifier.py lines 154–166, `stake_plan` (see `stake_plan_rows` for the loop). -/
def stake_plan (outcomes : List (String × ℚ × String)) (bankroll : ℚ)
    (cmap : List (String × ℚ)) (round_step : ℚ) :
    Option (List (String × String × ℚ × ℚ) × ℚ) :=
  let implieds := notifier_implieds outcomes cmap
  let s := pySum implieds
  let tot := if s = 0 then 1 else s
  match stake_plan_rows bankroll tot round_step cmap (outcomes.zip implieds) with
  | none => none
  | some rows =>
    some (rows.map (·.1), ((pyMinQ (rows.map (·.2))).getD 0))


/-- Python `str.lower` on the ASCII names this program handles. -/
def pyLower (s : String) : String := ⟨s.data.map Char.toLower⟩

/-- Python whitespace as stripped by `str.strip()`. -/
def isPySpace (c : Char) : Bool :=
  c = ' ' || c = '\t' || c = '\n' || c = '\r' || c = '\x0b' || c = '\x0c'

/-- Python `str.strip()`: drop whitespace at both ends. -/
def pyStrip (s : String) : String :=
  ⟨((s.data.dropWhile isPySpace).reverse.dropWhile isPySpace).reverse⟩

/-- Left-to-right non-overlapping replacement of `pat` by `rep`, as Python
`str.replace` does for a nonempty pattern.  `fuel` starts at the input length
and strictly bounds the number of steps, each of which consumes at least one
character, so the `fuel = 0` branch is never reached from `pyReplace`. -/
def strReplaceAux (pat rep : List Char) : Nat → List Char → List Char
  | _, [] => []
  | 0, l => l
  | fuel + 1, c :: rest =>
    if pat ≠ [] ∧ pat.isPrefixOf (c :: rest) then
      rep ++ strReplaceAux pat rep fuel (rest.drop (pat.length - 1))
    else c :: strReplaceAux pat rep fuel rest

/-- Python `s.replace(pat, rep)` for the nonempty patterns used by the sources. -/
def pyReplace (s pat rep : String) : String :=
  ⟨strReplaceAux pat.data rep.data s.data.length s.data⟩

/-- Python `needle in hay` on strings (substring containment). -/
def containsSubAux (needle : List Char) : List Char → Bool
  | [] => needle.isEmpty
  | c :: rest => needle.isPrefixOf (c :: rest) || containsSubAux needle rest

/-- Python `needle in hay` on strings. -/
def containsSub (hay needle : String) : Bool := containsSubAux needle.data hay.data

/-- Python `s.lower().startswith(pat)`. -/
def lowerStartsWith (s pat : String) : Bool := pat.data.isPrefixOf (pyLower s).data

/-- notifier.py lines 48–52, `norm`:
`n = (name or '').strip().lower()`, then the substitutions
`ladbrook → ladbroke`, `ladbrooks → ladbrokes`, `uni bet → unibet`. -/
def norm (name : String) : String :=
  let n := pyLower (pyStrip name)
  let n := pyReplace n "ladbrook" "ladbroke"
  let n := pyReplace n "ladbrooks" "ladbrokes"
  pyReplace n "uni bet" "unibet"

/-- notifier.py lines 53–60, `ALLOWED_BOOKS_CANON`: canonical name ↦ known variants. -/
def ALLOWED_BOOKS_CANON : List (String × List String) :=
  [("bet365", ["bet365"]),
   ("ladbrokes", ["ladbroke", "ladbrokes"]),
   ("william hill", ["william hill", "williamhill", "will hill"]),
   ("pinnacle", ["pinnacle", "pinny"]),
   ("unibet", ["unibet", "uni bet"]),
   ("coral", ["coral"])]

/-- notifier.py lines 66–73, `is_allowed`: the normalized name is allowed directly,
or it is a known variant of an allowed canonical name. -/
def is_allowed (name : String) (allowed_norm : List String) : Bool :=
  let ln := norm name
  if allowed_norm.contains ln then true
  else ALLOWED_BOOKS_CANON.any fun p => p.2.contains ln && allowed_norm.contains p.1

/-- Python `str.title()` on the ASCII outcome names handled here: upper-case a
letter that follows a non-letter, lower-case a letter that follows a letter. -/
def titleAux : Bool → List Char → List Char
  | _, [] => []
  | prevAlpha, c :: rest =>
    (if prevAlpha then c.toLower else c.toUpper) :: titleAux c.isAlpha rest

/-- Python `str.title()`. -/
def pyTitle (s : String) : String := ⟨titleAux false s.data⟩

/-- Join strings with single spaces (Python `" ".join(...)`). -/
def joinParts : List String → String
  | [] => ""
  | [s] => s
  | s :: rest => s ++ " " ++ joinParts rest

/-- One priced outcome of a bookmaker market, as consumed from the odds feed.
The JSON number `point` is only ever compared with `None`, stored into
`line_seen`, and interpolated into label strings, so it is modelled by its
rendered decimal text (e.g. `"9.5"`). -/
structure OutcomeJ where
  name : String
  price : ℚ
  point : Option String
deriving DecidableEq

/-- One market of a bookmaker entry. -/
structure MarketJ where
  key : String
  outcomes : List OutcomeJ
deriving DecidableEq

/-- One bookmaker entry of an event. -/
structure BookmakerJ where
  key : String
  title : String
  markets : List MarketJ
deriving DecidableEq

/-- One event of the odds feed. -/
structure EventJ where
  home_team : String
  away_team : String
  bookmakers : List BookmakerJ
deriving DecidableEq

/-- `bk.get("title") or bk.get("key")`: the key when the title is falsy. -/
def bookName (bk : BookmakerJ) : String := if bk.title = "" then bk.key else bk.title

/-- `best_ou[k]` lookup in the insertion-ordered dict modelled as an association list. -/
def ouFind (k : String) : List (String × ℚ × String) → Option (ℚ × String)
  | [] => none
  | e :: rest => if e.1 = k then some e.2 else ouFind k rest

/-- `best_ou[k] = v`: replace in place, or append (Python dicts keep insertion order). -/
def ouSet (k : String) (v : ℚ × String) :
    List (String × ℚ × String) → List (String × ℚ × String)
  | [] => [(k, v.1, v.2)]
  | e :: rest => if e.1 = k then (k, v.1, v.2) :: rest else e :: ouSet k v rest

/-- notifier.py line 23 / line 119: the accepted totals market keys. -/
def CORNER_MARKET_KEYS : List String :=
  ["totals", "totals_corners", "corners", "total_corners", "corners_totals"]

/-- The string-typed parts of the metadata blob of notifier.py line 122,
`" ".join([str(m.get("key","")), str(m.get("outcomes","")), str(bk.get("title",""))])`.
Python's `str()` of the outcomes list renders the fixed dict keys (`name`,
`price`, `point`), the outcome name strings, and digits/punctuation for the
numbers; of these only the outcome names (and textual points) can contribute
the searched token `"corner"`, so the model renders exactly those. -/
def strOfOutcomes (l : List OutcomeJ) : String :=
  joinParts (l.map fun o => o.name ++ " " ++ o.point.getD "")

/-- notifier.py lines 117–124: a market is scanned when its key is a totals
alias and the lower-cased metadata blob contains `"corner"`. -/
def cornersMarketTaken (bk : BookmakerJ) (m : MarketJ) : Bool :=
  CORNER_MARKET_KEYS.contains m.key &&
    containsSub (pyLower (m.key ++ " " ++ strOfOutcomes m.outcomes ++ " " ++ bk.title))
      "corner"

/-- notifier.py lines 125–135: process one outcome of an accepted corners market.
The state is `(best_ou, line_seen)`; `line_seen` is overwritten by every
non-null point of an Over/Under outcome, and `best_ou[label]` is replaced only
by a strictly higher price. -/
def isOverUnder (o : OutcomeJ) : Bool :=
  pyLower (pyStrip o.name) == "over" || pyLower (pyStrip o.name) == "under"

/-- notifier.py lines 125–135 (continued): the state update for one outcome. -/
def ouStep (book_name : String) (st : List (String × ℚ × String) × Option String)
    (o : OutcomeJ) : List (String × ℚ × String) × Option String :=
  if isOverUnder o then
    let name := pyStrip o.name
    let label := match o.point with
      | some p => pyTitle name ++ " " ++ p
      | none => pyTitle name
    let line2 : Option String := match o.point with
      | some p => some p
      | none => st.2
    let best2 := match ouFind label st.1 with
      | none => ouSet label (o.price, book_name) st.1
      | some pb => if pb.1 < o.price then ouSet label (o.price, book_name) st.1 else st.1
    (best2, line2)
  else st

/-- notifier.py lines 113–135: the `(best_ou, line_seen)` state after scanning
all bookmakers of one event. -/
def cornersFold (ev : EventJ) : List (String × ℚ × String) × Option String :=
  ev.bookmakers.foldl
    (fun st bk =>
      bk.markets.foldl
        (fun st2 m =>
          if cornersMarketTaken bk m then m.outcomes.foldl (ouStep (bookName bk)) st2
          else st2)
        st)
    ([], none)

/-- notifier.py lines 138–139: the canonical Over/Under keys rendered from
`line_seen`. -/
def ouCanonKeys (line_seen : Option String) : String × String :=
  (match line_seen with | some l => "Over " ++ l | none => "Over",
   match line_seen with | some l => "Under " ++ l | none => "Under")

/-- notifier.py lines 109–146, `extract_corners_ou`: `none` models the
`return None, []` exits (empty `best_ou`, or no over/under fallback candidate). -/
def extract_corners_ou (ev : EventJ) : Option (String × List (String × ℚ × String)) :=
  let best_ou := (cornersFold ev).1
  let line_seen := (cornersFold ev).2
  if best_ou.isEmpty then none
  else
    let over_key := (ouCanonKeys line_seen).1
    let under_key := (ouCanonKeys line_seen).2
    match ouFind over_key best_ou, ouFind under_key best_ou with
    | some vo, some vu =>
      some (ev.home_team ++ " vs " ++ ev.away_team,
        [(over_key, vo.1, vo.2), (under_key, vu.1, vu.2)])
    | _, _ =>
      let overs := best_ou.filter fun e => lowerStartsWith e.1 "over"
      let unders := best_ou.filter fun e => lowerStartsWith e.1 "under"
      match overs, unders with
      | eo :: _, eu :: _ => some (ev.home_team ++ " vs " ++ ev.away_team, [eo, eu])
      | _, _ => none

/-- Spec-side companion for `line_seen`: the textual points of the Over/Under
outcomes of accepted corners markets, in traversal order. -/
def cornerPointsSeen (ev : EventJ) : List String :=
  (ev.bookmakers.flatMap fun bk =>
    bk.markets.flatMap fun m =>
      if cornersMarketTaken bk m then m.outcomes.filter isOverUnder
      else []).filterMap (·.point)

/-- One entry of the `all_arbs` list built by notifier.py line 249/261. -/
structure Arb where
  league : String
  market : String
  matchStr : String
  outcomes : List (String × ℚ × String)
  roi_pct : ℚ
deriving DecidableEq

/-- Deterministic stand-in for notifier.py line 267's
`hashlib.sha256(json.dumps(all_arbs, sort_keys=True).encode("utf-8")).hexdigest()`:
a canonical serialization of the scan's arbitrage list.  The deduplication
logic depends only on the digest being a pure function of the list. -/
def digestModel (arbs : List Arb) : String :=
  joinParts (arbs.map fun a =>
    a.league ++ "|" ++ a.market ++ "|" ++ a.matchStr ++ "|" ++ toString a.roi_pct ++ "|"
      ++ joinParts (a.outcomes.map fun o => o.1 ++ "@" ++ toString o.2.1 ++ "@" ++ o.2.2))

/-- Outcome of one run of notifier.py `main` after the arbitrage list is built. -/
inductive ScanResult where
  | skippedNoArbs
  | skippedDuplicate
  | crashedNameError
deriving DecidableEq

/-- notifier.py lines 263–301, the tail of `main`, as a function of the stored
fingerprint and the scan's arbitrage list (returning the new stored fingerprint
and what the run did).  With no arbs the run exits before the dedup check
(line 264).  With an unchanged digest it exits without sending (lines 269–271).
With a changed digest it first overwrites the state file (line 272) and then,
while building the message, line 279 reads the name `notified_arbs`, which is
defined nowhere in the script (the list is named `all_arbs`), so Python raises
`NameError` before `telegram_send` (line 300) is ever reached: no notification
is sent, although the stored fingerprint has already been replaced. -/
def dedupStep (digestFn : List Arb → String) (prev : Option String) (arbs : List Arb) :
    Option String × ScanResult :=
  if arbs.isEmpty then (prev, .skippedNoArbs)
  else
    let d := digestFn arbs
    if some d = prev then (prev, .skippedDuplicate)
    else (some d, .crashedNameError)

theorem foldl_add_shift (l : List ℚ) (a : ℚ) : l.foldl (· + ·) a = a + pySum l := by
  induction l generalizing a with
  | nil => simp [pySum]
  | cons x xs ih =>
    show xs.foldl (· + ·) (a + x) = a + pySum (x :: xs)
    rw [ih (a + x)]
    show a + x + pySum xs = a + (x :: xs).foldl (· + ·) 0
    show a + x + pySum xs = a + xs.foldl (· + ·) (0 + x)
    rw [ih (0 + x)]
    ring

theorem pySum_cons (x : ℚ) (xs : List ℚ) : pySum (x :: xs) = x + pySum xs := by
  show xs.foldl (· + ·) (0 + x) = x + pySum xs
  rw [foldl_add_shift]
  ring

theorem pySum_pos (l : List ℚ) (hne : l ≠ []) (h : ∀ x ∈ l, 0 < x) : 0 < pySum l := by
  induction l with
  | nil => exact absurd rfl hne
  | cons x xs ih =>
    rw [pySum_cons]
    rcases List.eq_nil_or_concat xs with h0 | _
    · subst h0
      simpa [pySum] using h x (by simp)
    · have hx := h x (by simp)
      have hxs : 0 < pySum xs := by
        apply ih
        · rintro rfl
          simp_all
        · exact fun y hy => h y (by simp [hy])
      linarith

theorem pyRoundInt_abs_le (q : ℚ) : |(pyRoundInt q : ℚ) - q| ≤ 1 / 2 := by
  have h0 : (0 : ℚ) ≤ q - (⌊q⌋ : ℚ) := by
    have := Int.floor_le q; linarith
  have h1 : q - (⌊q⌋ : ℚ) < 1 := by
    have := Int.lt_floor_add_one q; linarith
  unfold pyRoundInt
  split
  · rename_i h
    rw [abs_le]
    constructor <;> linarith
  · rename_i h
    push_neg at h
    split
    · rename_i h2
      push_cast
      rw [abs_le]
      constructor <;> linarith
    · rename_i h2
      push_neg at h2
      split <;> (push_cast; rw [abs_le]; constructor <;> linarith)

/-- C10: `round_stake` is total at non-positive steps: it falls back to Python's
`round(value, 2)` (no exception), whose result is a whole number of hundredths
within half a hundredth of the input. -/
theorem spec_c10_round_stake_total (value step : ℚ) (h : step ≤ 0) :
    round_stake value step = pyRoundN value 2
    ∧ (∃ k : ℤ, round_stake value step = (k : ℚ) / 100)
    ∧ |round_stake value step - value| ≤ 1 / 200 := by
  have hb : round_stake value step = pyRoundN value 2 := by
    simp [round_stake, h]
  refine ⟨hb, ⟨pyRoundInt (value * 10 ^ 2), by rw [hb]; norm_num [pyRoundN]⟩, ?_⟩
  rw [hb]
  have hrepr : pyRoundN value 2 - value
      = ((pyRoundInt (value * 10 ^ 2) : ℚ) - value * 10 ^ 2) / 100 := by
    rw [pyRoundN]
    norm_num
    ring
  rw [hrepr, abs_div]
  have habs : |(100 : ℚ)| = 100 := by norm_num
  rw [habs]
  have hle := pyRoundInt_abs_le (value * 10 ^ 2)
  linarith

/-- C10 witness: at `value = 1/3`, `step = 0`. -/
theorem spec_c10_round_stake_total_witness :
    (0 : ℚ) ≤ 0 ∧ round_stake (1/3) 0 = pyRoundN (1/3) 2 :=
  ⟨le_refl 0, (spec_c10_round_stake_total (1/3) 0 (le_refl 0)).1⟩

/-- C1: the notifier evaluator's reported ROI is `(1 - sum(ip))*100` when
`sum(ip) < 1` (with positive margin), exactly `0` when `sum(ip) ≥ 1`, and never
negative; and the app's inline evaluator (app.py lines 311–313) satisfies the
same equations whenever its unguarded comprehension computes at all. -/
theorem spec_c1_roi_clamped (outcomes : List (String × ℚ × String)) (mr : ℚ)
    (cmap : List (String × ℚ)) :
    (pySum (notifier_implieds outcomes cmap) < 1 →
      0 < (compute_arbs_for_outcomes outcomes mr cmap).2
      ∧ (compute_arbs_for_outcomes outcomes mr cmap).1
          = (1 - pySum (notifier_implieds outcomes cmap)) * 100)
    ∧ (1 ≤ pySum (notifier_implieds outcomes cmap) →
      (compute_arbs_for_outcomes outcomes mr cmap).1 = 0)
    ∧ 0 ≤ (compute_arbs_for_outcomes outcomes mr cmap).1
    ∧ (∀ l, app_implieds_inline outcomes cmap = some l →
        (pySum l < 1 →
          app_margin_roi outcomes cmap = some (1 - pySum l, (1 - pySum l) * 100))
        ∧ (1 ≤ pySum l → app_margin_roi outcomes cmap = some (1 - pySum l, 0))) := by
  refine ⟨fun h => ⟨?_, ?_⟩, fun h => ?_, ?_, fun l hl => ⟨fun h => ?_, fun h => ?_⟩⟩
  · simp only [compute_arbs_for_outcomes]
    linarith
  · simp only [compute_arbs_for_outcomes]
    exact max_eq_left (by nlinarith)
  · simp only [compute_arbs_for_outcomes]
    exact max_eq_right (by nlinarith)
  · simp only [compute_arbs_for_outcomes]
    exact le_max_right _ _
  · have hmax : max ((1 - pySum l) * 100) 0 = (1 - pySum l) * 100 := max_eq_left (by nlinarith)
    simp [app_margin_roi, hl, hmax]
  · have hmax : max ((1 - pySum l) * 100) 0 = 0 := max_eq_right (by nlinarith)
    simp [app_margin_roi, hl, hmax]

/-- C1 witness: two outcomes at odds 2 and 4, no commissions: the implied sum is
`3/4 < 1` and the reported ROI is `25`. -/
theorem spec_c1_roi_clamped_witness :
    pySum (notifier_implieds [("Home", 2, "A"), ("Away", 4, "B")] []) < 1
    ∧ (compute_arbs_for_outcomes [("Home", 2, "A"), ("Away", 4, "B")] 0 []).1 = 25 := by
  have hs : pySum (notifier_implieds [("Home", 2, "A"), ("Away", 4, "B")] []) = 3/4 := by
    norm_num [pySum, notifier_implieds, dictGet, implied_prob]
  have h1 : pySum (notifier_implieds [("Home", 2, "A"), ("Away", 4, "B")] []) < 1 := by
    rw [hs]; norm_num
  refine ⟨h1, ?_⟩
  rw [((spec_c1_roi_clamped [("Home", 2, "A"), ("Away", 4, "B")] 0 []).1 h1).2, hs]
  norm_num

theorem app_implieds_inline_eq_notifier (best : List (String × ℚ × String))
    (cmap : List (String × ℚ))
    (h : ∀ t ∈ best, 0 < t.2.1 ∧ 0 ≤ dictGet cmap t.2.2 ∧ dictGet cmap t.2.2 < 1) :
    app_implieds_inline best cmap = some (notifier_implieds best cmap) := by
  induction best with
  | nil => simp [app_implieds_inline, notifier_implieds]
  | cons t rest ih =>
    obtain ⟨h1, _, h3⟩ := h t (by simp)
    have heff : 0 < t.2.1 * (1 - dictGet cmap t.2.2) := by nlinarith
    have hrest := ih (fun x hx => h x (by simp [hx]))
    simp only [app_implieds_inline, hrest]
    rw [if_neg (by simpa using ne_of_gt heff)]
    simp only [notifier_implieds, List.map_cons]
    have : implied_prob t.2.1 (dictGet cmap t.2.2)
        = 1 / (t.2.1 * (1 - dictGet cmap t.2.2)) := by
      simp only [implied_prob]
      rw [if_pos heff]
    rw [this]

/-- C9: with every price positive and every commission in `[0, 1)`, the app's
inline evaluator and the notifier's `compute_arbs_for_outcomes` produce
identical margin and ROI values. -/
theorem spec_c9_evaluators_agree (best : List (String × ℚ × String)) (mr : ℚ)
    (cmap : List (String × ℚ))
    (h : ∀ t ∈ best, 0 < t.2.1 ∧ 0 ≤ dictGet cmap t.2.2 ∧ dictGet cmap t.2.2 < 1) :
    app_margin_roi best cmap
      = some ((compute_arbs_for_outcomes best mr cmap).2,
              (compute_arbs_for_outcomes best mr cmap).1) := by
  rw [app_margin_roi, app_implieds_inline_eq_notifier best cmap h]
  simp [compute_arbs_for_outcomes]

/-- C9 witness: a single outcome at odds 2 with empty commission map. -/
theorem spec_c9_evaluators_agree_witness :
    (∀ t ∈ [("Home", (2:ℚ), "A")], 0 < t.2.1 ∧ 0 ≤ dictGet [] t.2.2 ∧ dictGet [] t.2.2 < 1)
    ∧ app_margin_roi [("Home", (2:ℚ), "A")] []
        = some ((compute_arbs_for_outcomes [("Home", (2:ℚ), "A")] 0 []).2,
                (compute_arbs_for_outcomes [("Home", (2:ℚ), "A")] 0 []).1) := by
  have h : ∀ t ∈ [("Home", (2:ℚ), "A")],
      0 < t.2.1 ∧ 0 ≤ dictGet [] t.2.2 ∧ dictGet [] t.2.2 < 1 := by
    intro t ht
    simp only [List.mem_singleton] at ht
    subst ht
    norm_num [dictGet]
  exact ⟨h, spec_c9_evaluators_agree [("Home", (2:ℚ), "A")] 0 [] h⟩

/-- C2: at effective odds `price*(1-commission) = 0` (e.g. price `0`), the app's
inline evaluator at app.py line 311 raises `ZeroDivisionError` (modelled `none`)
instead of assigning a sentinel, while the guarded `implied_prob` helpers
(notifier.py line 79, and app.py line 72, which the app's scan loop never calls)
do assign the effectively-infinite sentinel (`1e9`, resp. `inf`). -/
theorem spec_c2_sentinel_vs_crash :
    app_implieds_inline [("Home", 0, "Bet365")] [] = none
    ∧ implied_prob 0 0 = 1000000000
    ∧ app_implied_prob 0 0 = FV.pinf := by
  refine ⟨?_, ?_, ?_⟩
  · simp [app_implieds_inline, dictGet]
  · norm_num [implied_prob]
  · norm_num [app_implied_prob]

/-- C6 counterexample: the three names do not share one canonical form:
`norm "ladbroke" = "ladbroke"` while `norm "Ladbrooks" = norm "Ladbrokes" =
"ladbrokes"` (the first substitution `ladbrook → ladbroke` already turns
`ladbrooks` into `ladbrokes`, but leaves `ladbroke` untouched). -/
theorem spec_c6_counterexample :
    norm "ladbroke" ≠ norm "Ladbrooks"
    ∧ norm "ladbroke" = "ladbroke" ∧ norm "Ladbrooks" = "ladbrokes" := by
  refine ⟨by decide, by decide, by decide⟩

/-- C6 (amended): `norm` maps "Ladbrooks" and "Ladbrokes" to the canonical
"ladbrokes" while "ladbroke" normalizes to "ladbroke"; nevertheless all three
names satisfy the allow-list filter whenever "ladbrokes" is allowed
("ladbroke" through the `ALLOWED_BOOKS_CANON` variant table). -/
theorem spec_c6_normalizer_allowed (allowed : List String)
    (h : allowed.contains "ladbrokes" = true) :
    norm "Ladbrooks" = "ladbrokes" ∧ norm "Ladbrokes" = "ladbrokes"
    ∧ norm "ladbroke" = "ladbroke"
    ∧ is_allowed "Ladbrooks" allowed = true
    ∧ is_allowed "ladbroke" allowed = true
    ∧ is_allowed "Ladbrokes" allowed = true := by
  have hn1 : norm "Ladbrooks" = "ladbrokes" := by decide
  have hn2 : norm "Ladbrokes" = "ladbrokes" := by decide
  have hn3 : norm "ladbroke" = "ladbroke" := by decide
  have hm : "ladbrokes" ∈ allowed := by simpa using h
  refine ⟨hn1, hn2, hn3, ?_, ?_, ?_⟩
  · simp [is_allowed, hn1, h]
    exact Or.inl hm
  · by_cases hc : allowed.contains "ladbroke" = true
    · simp [is_allowed, hn3, hc]
      exact Or.inl (by simpa using hc)
    · simp only [is_allowed, hn3, Bool.not_eq_true] at hc ⊢
      rw [hc, if_neg (by simp)]
      simp [ALLOWED_BOOKS_CANON, h]
      exact hm
  · simp [is_allowed, hn2, h]
    exact Or.inl hm

/-- C6 witness: the allow-list `["ladbrokes"]`. -/
theorem spec_c6_normalizer_allowed_witness :
    (["ladbrokes"].contains "ladbrokes" = true)
    ∧ is_allowed "Ladbrooks" ["ladbrokes"] = true
    ∧ is_allowed "ladbroke" ["ladbrokes"] = true :=
  ⟨by decide, (spec_c6_normalizer_allowed ["ladbrokes"] (by decide)).2.2.2.1,
    (spec_c6_normalizer_allowed ["ladbrokes"] (by decide)).2.2.2.2.1⟩

/-- A concrete scan entry used to exercise the dedup state machine. -/
def sampleArb : Arb :=
  { league := "EPL", market := "1X2", matchStr := "A vs B",
    outcomes := [("Home", 2, "Betfair")], roi_pct := 1 }

/-- C4: the dedup logic of notifier.py `main`.  A repeated fingerprint triggers
no notification, and a second run on an identical list reuses the stored
fingerprint and also triggers nothing; but when the fingerprint differs the run
overwrites the state file and then crashes with `NameError` (line 279 reads the
undefined name `notified_arbs`) before `telegram_send`, so the promised single
notification is never sent. -/
theorem spec_c4_dedup_state_machine :
    dedupStep digestModel none [sampleArb]
        = (some (digestModel [sampleArb]), ScanResult.crashedNameError)
    ∧ dedupStep digestModel (some (digestModel [sampleArb])) [sampleArb]
        = (some (digestModel [sampleArb]), ScanResult.skippedDuplicate)
    ∧ (dedupStep digestModel (dedupStep digestModel none [sampleArb]).1 [sampleArb]).2
        = ScanResult.skippedDuplicate
    ∧ dedupStep digestModel (some (digestModel [])) []
        = (some (digestModel []), ScanResult.skippedNoArbs) := by
  refine ⟨?_, ?_, ?_, ?_⟩ <;> simp [dedupStep]

/-- The exact implied probability of one outcome on the unexceptional path of
app.py line 85. -/
def ipq (cmap : List (String × ℚ)) (t : String × ℚ × String) : ℚ :=
  1 / (t.2.1 * (1 - dictGet cmap t.2.2))

/-- The exact total implied probability (`total_ip`) on the unexceptional path. -/
def totq (best : List (String × ℚ × String)) (cmap : List (String × ℚ)) : ℚ :=
  pySum (best.map (ipq cmap))

/-- The exact unrounded stake of app.py line 91 on the unexceptional path. -/
def stakeq (best : List (String × ℚ × String)) (bankroll : ℚ)
    (cmap : List (String × ℚ)) (t : String × ℚ × String) : ℚ :=
  if 0 < totq best cmap then bankroll * (ipq cmap t / totq best cmap) else 0

/-- The exact plan row of app.py line 95 on the unexceptional path. -/
def rowq (best : List (String × ℚ × String)) (bankroll : ℚ)
    (cmap : List (String × ℚ)) (t : String × ℚ × String) : Row :=
  { outcome := t.1, bookmaker := t.2.2, odds := t.2.1, commission := dictGet cmap t.2.2,
    stake := FV.fin (stakeq best bankroll cmap t),
    payout := FV.fin (stakeq best bankroll cmap t * t.2.1 * (1 - dictGet cmap t.2.2)) }

/-- The exact `min(payouts) if payouts else 0.0` of app.py line 96. -/
def minPayoutq (best : List (String × ℚ × String)) (bankroll : ℚ)
    (cmap : List (String × ℚ)) : ℚ :=
  (pyMinQ (best.map fun t =>
    stakeq best bankroll cmap t * t.2.1 * (1 - dictGet cmap t.2.2))).getD 0

/-- The exact `roi_pct` of app.py line 97. -/
def roiq (best : List (String × ℚ × String)) (bankroll : ℚ)
    (cmap : List (String × ℚ)) : ℚ :=
  if bankroll ≠ 0 then (minPayoutq best bankroll cmap - bankroll) / bankroll * 100 else 0

theorem app_ip_happy (cmap : List (String × ℚ)) (t : String × ℚ × String)
    (h1 : 0 < t.2.1) (h2 : t.2.1 * (1 - dictGet cmap t.2.2) ≠ 0) :
    app_ip cmap t = some (FV.fin (ipq cmap t)) := by
  simp only [app_ip, ipq]
  rw [if_pos h1, if_neg h2]

theorem app_implieds_happy (best : List (String × ℚ × String)) (cmap : List (String × ℚ))
    (h : ∀ t ∈ best, 0 < t.2.1 ∧ t.2.1 * (1 - dictGet cmap t.2.2) ≠ 0) :
    app_implieds best cmap = some (best.map fun t => FV.fin (ipq cmap t)) := by
  induction best with
  | nil => simp [app_implieds]
  | cons t rest ih =>
    obtain ⟨h1, h2⟩ := h t (by simp)
    have hrest := ih (fun x hx => h x (by simp [hx]))
    simp only [app_implieds, hrest, app_ip_happy cmap t h1 h2, List.map_cons]

theorem fv_foldl_add_fin (l : List ℚ) (a : ℚ) :
    (l.map FV.fin).foldl FV.add (FV.fin a) = FV.fin (l.foldl (· + ·) a) := by
  induction l generalizing a with
  | nil => rfl
  | cons x xs ih =>
    simp only [List.map_cons, List.foldl_cons]
    exact ih (a + x)

theorem fv_sum_map_fin (l : List ℚ) : FV.sum (l.map FV.fin) = FV.fin (pySum l) :=
  fv_foldl_add_fin l 0

theorem zip_self_map {α β : Type} (l : List α) (g : α → β) :
    l.zip (l.map g) = l.map fun a => (a, g a) := by
  induction l with
  | nil => rfl
  | cons x xs ih => simp [ih]

theorem pyMinFV_map_fin (l : List ℚ) :
    pyMinFV (l.map FV.fin) = (pyMinQ l).map FV.fin := by
  cases l with
  | nil => rfl
  | cons h t =>
    simp only [pyMinFV, pyMinQ, List.map_cons, Option.map]
    congr 1
    induction t generalizing h with
    | nil => rfl
    | cons x xs ih =>
      simp only [List.map_cons, List.foldl_cons, FV.lt]
      by_cases hc : x < h
      · simp only [hc, decide_True, if_true]
        exact ih x
      · simp only [hc, decide_False, if_false]
        exact ih h

theorem pySum_map_mul_left {α : Type} (l : List α) (c : ℚ) (g : α → ℚ) :
    pySum (l.map fun x => c * g x) = c * pySum (l.map g) := by
  induction l with
  | nil => simp [pySum]
  | cons x xs ih =>
    rw [List.map_cons, pySum_cons, List.map_cons, pySum_cons, ih]
    ring

/-- The unexceptional path of `stake_split_for_arbitrage`: with every price
positive and every effective price nonzero, the result is `some` and every
component is the exact rational given by the source's formulas. -/
theorem stake_split_fin_path (best : List (String × ℚ × String)) (bankroll : ℚ)
    (cmap : List (String × ℚ))
    (h : ∀ t ∈ best, 0 < t.2.1 ∧ t.2.1 * (1 - dictGet cmap t.2.2) ≠ 0) :
    stake_split_for_arbitrage best bankroll cmap
      = some (best.map (rowq best bankroll cmap),
              FV.fin (roiq best bankroll cmap),
              FV.fin (1 - totq best cmap)) := by
  have himp := app_implieds_happy best cmap h
  simp only [stake_split_for_arbitrage, himp]
  have hmapmap : (best.map fun t => FV.fin (ipq cmap t)) = (best.map (ipq cmap)).map FV.fin := by
    rw [List.map_map]
    rfl
  have htot : FV.sum (best.map fun t => FV.fin (ipq cmap t)) = FV.fin (totq best cmap) := by
    rw [hmapmap, fv_sum_map_fin]
    rfl
  rw [htot]
  have hzip : best.zip (best.map fun t => FV.fin (ipq cmap t))
      = best.map fun t => (t, FV.fin (ipq cmap t)) := zip_self_map best _
  rw [hzip, List.map_map]
  have hrow : ((fun p : (String × ℚ × String) × FV =>
        app_row bankroll (FV.fin (totq best cmap)) cmap p.1 p.2) ∘
        fun t => (t, FV.fin (ipq cmap t)))
      = rowq best bankroll cmap := by
    funext t
    by_cases hc : 0 < totq best cmap
    · simp [Function.comp, app_row, rowq, app_stake, stakeq, FV.lt, hc, FV.divPos, FV.mul]
    · simp [Function.comp, app_row, rowq, app_stake, stakeq, FV.lt, hc, FV.mul]
  rw [hrow]
  have hpayout : (best.map (rowq best bankroll cmap)).map Row.payout
      = (best.map fun t =>
          stakeq best bankroll cmap t * t.2.1 * (1 - dictGet cmap t.2.2)).map FV.fin := by
    rw [List.map_map, List.map_map]
    rfl
  rw [hpayout, pyMinFV_map_fin]
  have hmin : ((pyMinQ (best.map fun t =>
        stakeq best bankroll cmap t * t.2.1 * (1 - dictGet cmap t.2.2))).map FV.fin).getD
        (FV.fin 0)
      = FV.fin (minPayoutq best bankroll cmap) := by
    rw [minPayoutq]
    cases pyMinQ (best.map fun t =>
        stakeq best bankroll cmap t * t.2.1 * (1 - dictGet cmap t.2.2)) <;> rfl
  rw [hmin]
  by_cases hb : bankroll ≠ 0
  · rw [if_pos hb]
    have : FV.mul (FV.divnz (FV.sub (FV.fin (minPayoutq best bankroll cmap))
          (FV.fin bankroll)) bankroll) (FV.fin 100)
        = FV.fin (roiq best bankroll cmap) := by
      simp only [FV.sub, FV.neg, FV.add, FV.divnz, FV.mul, roiq, if_pos hb]
      rw [sub_eq_add_neg]
    rw [this]
    simp [FV.sub, FV.neg, FV.add, sub_eq_add_neg]
  · rw [if_neg hb]
    simp only [roiq, if_neg hb]
    simp [FV.sub, FV.neg, FV.add, sub_eq_add_neg]

/-- C8: with every price positive, every effective price nonzero and a positive
total implied probability, the unrounded stakes of `stake_split_for_arbitrage`
sum exactly to the bankroll. -/
theorem spec_c8_stakes_sum_to_bankroll (best : List (String × ℚ × String)) (bankroll : ℚ)
    (cmap : List (String × ℚ))
    (h : ∀ t ∈ best, 0 < t.2.1 ∧ t.2.1 * (1 - dictGet cmap t.2.2) ≠ 0)
    (hpos : 0 < totq best cmap) :
    ∃ rows roi margin,
      stake_split_for_arbitrage best bankroll cmap = some (rows, roi, margin)
      ∧ FV.sum (rows.map Row.stake) = FV.fin bankroll := by
  refine ⟨_, _, _, stake_split_fin_path best bankroll cmap h, ?_⟩
  have hstakes : (best.map (rowq best bankroll cmap)).map Row.stake
      = (best.map fun t => stakeq best bankroll cmap t).map FV.fin := by
    rw [List.map_map, List.map_map]
    rfl
  rw [hstakes, fv_sum_map_fin]
  congr 1
  have hs : (fun t => stakeq best bankroll cmap t)
      = fun t : String × ℚ × String => (bankroll / totq best cmap) * ipq cmap t := by
    funext t
    rw [stakeq, if_pos hpos]
    ring
  rw [hs, pySum_map_mul_left]
  show bankroll / totq best cmap * totq best cmap = bankroll
  field_simp

/-- C8 witness: two outcomes at odds 2, bankroll 50: stakes 25 + 25 = 50. -/
theorem spec_c8_stakes_sum_to_bankroll_witness :
    (∀ t ∈ [("A", (2:ℚ), "x"), ("B", (2:ℚ), "y")],
      0 < t.2.1 ∧ t.2.1 * (1 - dictGet [] t.2.2) ≠ 0)
    ∧ 0 < totq [("A", (2:ℚ), "x"), ("B", (2:ℚ), "y")] []
    ∧ ∃ rows roi margin,
        stake_split_for_arbitrage [("A", (2:ℚ), "x"), ("B", (2:ℚ), "y")] 50 []
          = some (rows, roi, margin)
        ∧ FV.sum (rows.map Row.stake) = FV.fin 50 := by
  have h : ∀ t ∈ [("A", (2:ℚ), "x"), ("B", (2:ℚ), "y")],
      0 < t.2.1 ∧ t.2.1 * (1 - dictGet [] t.2.2) ≠ 0 := by
    intro t ht
    fin_cases ht <;> norm_num [dictGet]
  have hpos : 0 < totq [("A", (2:ℚ), "x"), ("B", (2:ℚ), "y")] [] := by
    norm_num [totq, pySum, ipq, dictGet]
  exact ⟨h, hpos, spec_c8_stakes_sum_to_bankroll _ 50 _ h hpos⟩

theorem fv_add_fin_inv {a b : FV} {q : ℚ} (h : FV.add a b = FV.fin q) :
    (∃ x, a = FV.fin x) ∧ ∃ y, b = FV.fin y := by
  cases a <;> cases b <;> simp_all [FV.add]

theorem fv_foldl_fin_inv : ∀ (l : List FV) (acc : FV) (s : ℚ),
    l.foldl FV.add acc = FV.fin s → (∃ q, acc = FV.fin q) ∧ ∀ x ∈ l, ∃ q, x = FV.fin q := by
  intro l
  induction l with
  | nil => exact fun acc s h => ⟨⟨s, h⟩, by simp⟩
  | cons x xs ih =>
    intro acc s h
    simp only [List.foldl_cons] at h
    obtain ⟨⟨q, hq⟩, hall⟩ := ih (FV.add acc x) s h
    obtain ⟨ha, hx⟩ := fv_add_fin_inv hq
    refine ⟨ha, fun y hy => ?_⟩
    rcases List.mem_cons.mp hy with rfl | hy2
    · exact hx
    · exact hall y hy2

theorem app_ip_fin_inv (cmap : List (String × ℚ)) (t : String × ℚ × String) (q : ℚ)
    (h : app_ip cmap t = some (FV.fin q)) :
    0 < t.2.1 ∧ t.2.1 * (1 - dictGet cmap t.2.2) ≠ 0 := by
  by_cases h1 : 0 < t.2.1
  · by_cases h2 : t.2.1 * (1 - dictGet cmap t.2.2) = 0
    · simp [app_ip, h1, h2] at h
    · exact ⟨h1, h2⟩
  · simp [app_ip, h1] at h

theorem app_implieds_fin_inv (best : List (String × ℚ × String)) (cmap : List (String × ℚ)) :
    ∀ ips : List FV, app_implieds best cmap = some ips →
    (∀ x ∈ ips, ∃ q, x = FV.fin q) →
    ∀ t ∈ best, 0 < t.2.1 ∧ t.2.1 * (1 - dictGet cmap t.2.2) ≠ 0 := by
  induction best with
  | nil => simp
  | cons t rest ih =>
    intro ips h hfin u hu
    cases hip : app_ip cmap t with
    | none =>
      simp only [app_implieds, hip] at h
      exact Option.noConfusion h
    | some ip =>
      cases hrest : app_implieds rest cmap with
      | none =>
        simp only [app_implieds, hip, hrest] at h
        exact Option.noConfusion h
      | some l =>
        simp only [app_implieds, hip, hrest, Option.some.injEq] at h
        subst h
        rcases List.mem_cons.mp hu with rfl | hu2
        · obtain ⟨q, hq⟩ := hfin ip (by simp)
          subst hq
          exact app_ip_fin_inv cmap u q hip
        · exact ih l hrest (fun x hx => hfin x (by simp [hx])) u hu2

theorem implied_prob_pos (odds c : ℚ) : 0 < implied_prob odds c := by
  simp only [implied_prob]
  split
  · rename_i h
    exact one_div_pos.mpr h
  · norm_num

/-- C7: when the total implied probability is zero, the app's stake allocator
returns a plan whose stakes and payouts are all exactly zero (no division by
zero, no NaN), and the notifier's degenerate `sum(implieds) or 1.0` fallback
(reachable only with an empty outcome list, since its implied probabilities are
always positive) yields the empty all-zero plan. -/
theorem spec_c7_zero_total_ip (best : List (String × ℚ × String)) (bankroll : ℚ)
    (cmap : List (String × ℚ)) (ips : List FV)
    (h : app_implieds best cmap = some ips) (hz : FV.sum ips = FV.fin 0) :
    (∃ rows roi margin,
        stake_split_for_arbitrage best bankroll cmap = some (rows, roi, margin)
        ∧ ∀ r ∈ rows, r.stake = FV.fin 0 ∧ r.payout = FV.fin 0)
    ∧ (∀ outcomes : List (String × ℚ × String), ∀ step : ℚ,
        pySum (notifier_implieds outcomes cmap) = 0 →
        stake_plan outcomes bankroll cmap step = some ([], 0)) := by
  constructor
  · have hfin : ∀ x ∈ ips, ∃ q, x = FV.fin q := (fv_foldl_fin_inv ips (FV.fin 0) 0 hz).2
    have hh := app_implieds_fin_inv best cmap ips h hfin
    have hips : ips = best.map fun t => FV.fin (ipq cmap t) := by
      have h2 := app_implieds_happy best cmap hh
      rw [h, Option.some.injEq] at h2
      exact h2
    have htot : totq best cmap = 0 := by
      rw [hips] at hz
      rw [(by rw [List.map_map]; rfl :
            (best.map fun t => FV.fin (ipq cmap t)) = (best.map (ipq cmap)).map FV.fin),
        fv_sum_map_fin] at hz
      exact FV.fin.inj hz
    refine ⟨_, _, _, stake_split_fin_path best bankroll cmap hh, ?_⟩
    intro r hr
    rw [List.mem_map] at hr
    obtain ⟨t, _, rfl⟩ := hr
    have hst : stakeq best bankroll cmap t = 0 := by
      rw [stakeq, htot]
      simp
    exact ⟨by simp [rowq, hst], by simp [rowq, hst]⟩
  · intro outcomes step hsum
    have hout : outcomes = [] := by
      cases houtc : outcomes with
      | nil => rfl
      | cons a l =>
        exfalso
        have hpos : 0 < pySum (notifier_implieds outcomes cmap) := by
          apply pySum_pos
          · simp [notifier_implieds, houtc]
          · intro x hx
            obtain ⟨t, _, rfl⟩ := List.mem_map.mp hx
            exact implied_prob_pos _ _
        rw [hsum] at hpos
        exact lt_irrefl 0 hpos
    subst hout
    rfl

/-- C7 witness: two unit-odds outcomes whose commissions (2 for book "X", 0 for
book "Y") give implied probabilities `-1` and `1`, summing to zero. -/
theorem spec_c7_zero_total_ip_witness :
    app_implieds [("A", 1, "X"), ("B", 1, "Y")] [("X", 2)]
      = some [FV.fin (-1), FV.fin 1]
    ∧ FV.sum [FV.fin (-1), FV.fin 1] = FV.fin 0
    ∧ ∃ rows roi margin,
        stake_split_for_arbitrage [("A", 1, "X"), ("B", 1, "Y")] 100 [("X", 2)]
          = some (rows, roi, margin)
        ∧ ∀ r ∈ rows, r.stake = FV.fin 0 ∧ r.payout = FV.fin 0 := by
  have h1 : app_implieds [("A", 1, "X"), ("B", 1, "Y")] [("X", 2)]
      = some [FV.fin (-1), FV.fin 1] := by
    have hx : dictGet [("X", 2)] "X" = 2 := by simp [dictGet]
    have hy : dictGet [("X", 2)] "Y" = 0 := by simp [dictGet]
    simp only [app_implieds, app_ip, hx, hy]
    norm_num
  have h2 : FV.sum [FV.fin (-1), FV.fin 1] = FV.fin 0 := by
    simp only [FV.sum, List.foldl_cons, List.foldl_nil, FV.add]
    norm_num
  exact ⟨h1, h2,
    (spec_c7_zero_total_ip [("A", 1, "X"), ("B", 1, "Y")] 100 [("X", 2)] _ h1 h2).1⟩

theorem stake_plan_rows_payouts (bankroll tot step : ℚ) (cmap : List (String × ℚ)) :
    ∀ (l : List ((String × ℚ × String) × ℚ)) rows,
      stake_plan_rows bankroll tot step cmap l = some rows →
      rows.map (·.2) = rows.map fun r => r.1.2.2.2 * r.1.2.2.1 * (1 - dictGet cmap r.1.2.1) := by
  intro l
  induction l with
  | nil =>
    intro rows h
    simp only [stake_plan_rows, Option.some.injEq] at h
    subst h
    rfl
  | cons p rest ih =>
    intro rows h
    simp only [stake_plan_rows] at h
    by_cases hs : step = 0
    · rw [if_pos hs] at h
      exact Option.noConfusion h
    · rw [if_neg hs] at h
      cases hrest : stake_plan_rows bankroll tot step cmap rest with
      | none =>
        rw [hrest] at h
        exact Option.noConfusion h
      | some l2 =>
        rw [hrest, Option.some.injEq] at h
        subst h
        simp only [List.map_cons, List.cons.injEq]
        exact ⟨trivial, ih l2 hrest⟩

/-- C3 (amended): the app's `stake_split_for_arbitrage` reports each net payout
as `stake_i * price_i * (1 - commission_i)` computed from the **unrounded**
stake, and the realized ROI as `(min(payouts) - bankroll)/bankroll*100` when
`bankroll ≠ 0` (truthiness, not `> 0`), else `0`; the notifier's `stake_plan`
computes its payouts (entering the equalized minimum) from the **rounded**
stakes. -/
theorem spec_c3_payouts_and_roi (best : List (String × ℚ × String)) (bankroll : ℚ)
    (cmap : List (String × ℚ))
    (h : ∀ t ∈ best, 0 < t.2.1 ∧ t.2.1 * (1 - dictGet cmap t.2.2) ≠ 0) :
    (∃ rows roi margin,
      stake_split_for_arbitrage best bankroll cmap = some (rows, roi, margin)
      ∧ (∀ r ∈ rows, ∃ s : ℚ, r.stake = FV.fin s
          ∧ r.payout = FV.fin (s * r.odds * (1 - r.commission)))
      ∧ ∃ pq : List ℚ, rows.map Row.payout = pq.map FV.fin
          ∧ roi = FV.fin (if bankroll ≠ 0
              then ((pyMinQ pq).getD 0 - bankroll) / bankroll * 100 else 0))
    ∧ (∀ outcomes : List (String × ℚ × String), ∀ bankroll2 step : ℚ,
        ∀ cmap2 : List (String × ℚ),
        ∀ plan : List (String × String × ℚ × ℚ), ∀ eqp : ℚ, step ≠ 0 →
        stake_plan outcomes bankroll2 cmap2 step = some (plan, eqp) →
        eqp = (pyMinQ (plan.map fun row =>
          row.2.2.2 * row.2.2.1 * (1 - dictGet cmap2 row.2.1))).getD 0) := by
  constructor
  · refine ⟨_, _, _, stake_split_fin_path best bankroll cmap h, ?_, ?_⟩
    · intro r hr
      obtain ⟨t, _, rfl⟩ := List.mem_map.mp hr
      exact ⟨stakeq best bankroll cmap t, rfl, rfl⟩
    · refine ⟨best.map fun t =>
        stakeq best bankroll cmap t * t.2.1 * (1 - dictGet cmap t.2.2), ?_, ?_⟩
      · rw [List.map_map, List.map_map]
        rfl
      · rfl
  · intro outcomes bankroll2 step cmap2 plan eqp _ hsp
    simp only [stake_plan] at hsp
    cases hrows : stake_plan_rows bankroll2
        (if pySum (notifier_implieds outcomes cmap2) = 0 then 1
         else pySum (notifier_implieds outcomes cmap2)) step cmap2
        (outcomes.zip (notifier_implieds outcomes cmap2)) with
    | none =>
      rw [hrows] at hsp
      exact Option.noConfusion hsp
    | some rows =>
      rw [hrows, Option.some.injEq, Prod.mk.injEq] at hsp
      obtain ⟨hplan, heqp⟩ := hsp
      have hpay := stake_plan_rows_payouts bankroll2 _ step cmap2 _ rows hrows
      rw [← heqp, ← hplan, List.map_map, hpay]
      rfl

/-- C3 witness: a single outcome at odds 2, bankroll 100, no commissions. -/
theorem spec_c3_payouts_and_roi_witness :
    (∀ t ∈ [("A", (2:ℚ), "x")], 0 < t.2.1 ∧ t.2.1 * (1 - dictGet [] t.2.2) ≠ 0)
    ∧ ∃ rows roi margin,
        stake_split_for_arbitrage [("A", (2:ℚ), "x")] 100 [] = some (rows, roi, margin)
        ∧ (∀ r ∈ rows, ∃ s : ℚ, r.stake = FV.fin s
            ∧ r.payout = FV.fin (s * r.odds * (1 - r.commission)))
        ∧ ∃ pq : List ℚ, rows.map Row.payout = pq.map FV.fin
            ∧ roi = FV.fin (if (100:ℚ) ≠ 0
                then ((pyMinQ pq).getD 0 - 100) / 100 * 100 else 0) := by
  have h : ∀ t ∈ [("A", (2:ℚ), "x")], 0 < t.2.1 ∧ t.2.1 * (1 - dictGet [] t.2.2) ≠ 0 := by
    intro t ht
    fin_cases ht <;> norm_num [dictGet]
  exact ⟨h, (spec_c3_payouts_and_roi [("A", (2:ℚ), "x")] 100 [] h).1⟩

/-- C3 counterexample: at outcomes `A @ 3`, `B @ 1.5`, bankroll 100, no
commissions, the app reports both net payouts as `100` — the value computed
from the **unrounded** stakes `100/3` and `200/3` — although the rounded stake
at the app's default step `0.05` would give `round_stake(100/3, 0.05) * 3 =
100.05 ≠ 100`; and at bankroll `-100` (which is not `> 0`) the reported
realized ROI is `100/3`, not the claimed `0`. -/
theorem spec_c3_counterexample :
    stake_split_for_arbitrage [("A", 3, "x"), ("B", 3/2, "y")] 100 []
      = some ([{ outcome := "A", bookmaker := "x", odds := 3, commission := 0,
                 stake := FV.fin (100/3), payout := FV.fin 100 },
               { outcome := "B", bookmaker := "y", odds := 3/2, commission := 0,
                 stake := FV.fin (200/3), payout := FV.fin 100 }],
              FV.fin 0, FV.fin 0)
    ∧ round_stake (100/3) (1/20) * 3 * (1 - 0) = 2001/20
    ∧ (2001/20 : ℚ) ≠ 100
    ∧ (stake_split_for_arbitrage [("A", 2, "x"), ("B", 4, "y")] (-100) []).map
        (fun r => r.2.1) = some (FV.fin (100/3))
    ∧ (100/3 : ℚ) ≠ 0 := by
  refine ⟨?_, ?_, by norm_num, ?_, by norm_num⟩
  · have h1 : ∀ t ∈ [("A", (3:ℚ), "x"), ("B", (3/2:ℚ), "y")],
        0 < t.2.1 ∧ t.2.1 * (1 - dictGet [] t.2.2) ≠ 0 := by
      intro t ht
      fin_cases ht <;> norm_num [dictGet]
    rw [stake_split_fin_path _ 100 [] h1]
    norm_num [rowq, stakeq, ipq, totq, roiq, minPayoutq, pySum, pyMinQ, dictGet]
  · have hfa : ⌊(2000/3 : ℚ)⌋ = 666 := by
      rw [Int.floor_eq_iff]
      norm_num
    have hra : pyRoundInt (2000/3 : ℚ) = 667 := by
      rw [pyRoundInt, hfa]
      norm_num
    have hfb : ⌊(3335 + 1/10000000 : ℚ)⌋ = 3335 := by
      rw [Int.floor_eq_iff]
      norm_num
    have hrb : pyRoundInt (3335 + 1/10000000 : ℚ) = 3335 := by
      rw [pyRoundInt, hfb]
      norm_num
    have hdiv : (100/3 : ℚ) / (1/20) = 2000/3 := by norm_num
    rw [round_stake, if_neg (by norm_num), pyRoundN, hdiv, hra]
    have harg : (((667:ℤ):ℚ) * (1/20) + 1/1000000000) * 10 ^ 2 = 3335 + 1/10000000 := by
      push_cast
      norm_num
    rw [harg, hrb]
    push_cast
    norm_num
  · have h2 : ∀ t ∈ [("A", (2:ℚ), "x"), ("B", (4:ℚ), "y")],
        0 < t.2.1 ∧ t.2.1 * (1 - dictGet [] t.2.2) ≠ 0 := by
      intro t ht
      fin_cases ht <;> norm_num [dictGet]
    rw [stake_split_fin_path _ (-100) [] h2]
    norm_num [roiq, minPayoutq, stakeq, ipq, totq, pySum, pyMinQ, dictGet]

theorem foldl_last_point (pts : List String) (c : Option String) :
    pts.foldl (fun _ p => some p) c = pts.getLast?.or c := by
  induction pts generalizing c with
  | nil => rfl
  | cons p rest ih =>
    simp only [List.foldl_cons]
    rw [ih (some p)]
    cases rest with
    | nil => rfl
    | cons a l =>
      rw [List.getLast?_cons_cons]
      cases hg : (a :: l).getLast? with
      | none => simp [List.getLast?_eq_none_iff] at hg
      | some x => rfl

theorem ouStep_snd (b : String) (st : List (String × ℚ × String) × Option String)
    (o : OutcomeJ) :
    (ouStep b st o).2
      = (if isOverUnder o then o.point.toList else []).foldl (fun _ p => some p) st.2 := by
  rw [ouStep]
  by_cases h : isOverUnder o
  · rw [if_pos h, if_pos h]
    cases o.point <;> rfl
  · rw [if_neg h, if_neg h]
    rfl

theorem foldl_ouStep_snd (b : String) (l : List OutcomeJ)
    (st : List (String × ℚ × String) × Option String) :
    (l.foldl (ouStep b) st).2
      = ((l.filter isOverUnder).filterMap (·.point)).foldl (fun _ p => some p) st.2 := by
  induction l generalizing st with
  | nil => rfl
  | cons o rest ih =>
    rw [List.foldl_cons, ih, ouStep_snd]
    by_cases h : isOverUnder o
    · cases hp : o.point with
      | some p => simp [List.filter_cons, h, hp, List.filterMap_cons]
      | none => simp [List.filter_cons, h, hp, List.filterMap_cons]
    · simp [List.filter_cons, h]

theorem foldl_markets_snd (bk : BookmakerJ) (ms : List MarketJ)
    (st : List (String × ℚ × String) × Option String) :
    (ms.foldl (fun st2 m => if cornersMarketTaken bk m
        then m.outcomes.foldl (ouStep (bookName bk)) st2 else st2) st).2
      = ((ms.flatMap fun m => if cornersMarketTaken bk m
          then m.outcomes.filter isOverUnder else []).filterMap (·.point)).foldl
            (fun _ p => some p) st.2 := by
  induction ms generalizing st with
  | nil => rfl
  | cons m rest ih =>
    rw [List.foldl_cons, ih]
    by_cases h : cornersMarketTaken bk m
    · simp only [h, if_true, List.flatMap_cons, List.filterMap_append, List.foldl_append]
      rw [foldl_ouStep_snd]
    · simp [h, List.flatMap_cons, List.filterMap_append, List.foldl_append]

theorem cornersFold_snd (ev : EventJ) :
    (cornersFold ev).2 = (cornerPointsSeen ev).foldl (fun _ p => some p) none := by
  rw [cornersFold, cornerPointsSeen]
  generalize hinit : (([], none) : List (String × ℚ × String) × Option String) = st
  have : st.2 = none := by rw [← hinit]
  rw [← this]
  clear hinit this
  induction ev.bookmakers generalizing st with
  | nil => rfl
  | cons bk rest ih =>
    rw [List.foldl_cons, ih]
    simp only [List.flatMap_cons, List.filterMap_append, List.foldl_append]
    rw [foldl_markets_snd]

/-- C5 (part): the `line_seen` of the corners extraction is the **last**
non-null point encountered in traversal order. -/
theorem cornersFold_line_last (ev : EventJ) :
    (cornersFold ev).2 = (cornerPointsSeen ev).getLast? := by
  rw [cornersFold_snd, foldl_last_point, Option.or_none]

/-- C5 (amended): in the corners extraction, the **last** encountered non-null
line becomes canonical (part 1); when both canonical labels `Over <line>` /
`Under <line>` are present the extraction returns exactly them (part 2); when a
canonical label is missing, the first collected keys starting with
"over"/"under" are the fallback (part 3); an event with no collected outcomes,
or with no over- or no under-candidate under a missing canonical label, is
excluded (parts 4, 5). -/
theorem spec_c5_corners_extraction (ev : EventJ) :
    (cornersFold ev).2 = (cornerPointsSeen ev).getLast?
    ∧ (∀ vo vu : ℚ × String,
        ouFind (ouCanonKeys (cornersFold ev).2).1 (cornersFold ev).1 = some vo →
        ouFind (ouCanonKeys (cornersFold ev).2).2 (cornersFold ev).1 = some vu →
        extract_corners_ou ev = some (ev.home_team ++ " vs " ++ ev.away_team,
          [((ouCanonKeys (cornersFold ev).2).1, vo.1, vo.2),
           ((ouCanonKeys (cornersFold ev).2).2, vu.1, vu.2)]))
    ∧ (∀ eo eu : String × ℚ × String, ∀ rest1 rest2 : List (String × ℚ × String),
        (ouFind (ouCanonKeys (cornersFold ev).2).1 (cornersFold ev).1 = none ∨
         ouFind (ouCanonKeys (cornersFold ev).2).2 (cornersFold ev).1 = none) →
        (cornersFold ev).1.filter (fun e => lowerStartsWith e.1 "over") = eo :: rest1 →
        (cornersFold ev).1.filter (fun e => lowerStartsWith e.1 "under") = eu :: rest2 →
        extract_corners_ou ev = some (ev.home_team ++ " vs " ++ ev.away_team, [eo, eu]))
    ∧ ((cornersFold ev).1 = [] → extract_corners_ou ev = none)
    ∧ ((ouFind (ouCanonKeys (cornersFold ev).2).1 (cornersFold ev).1 = none ∨
        ouFind (ouCanonKeys (cornersFold ev).2).2 (cornersFold ev).1 = none) →
       ((cornersFold ev).1.filter (fun e => lowerStartsWith e.1 "over") = [] ∨
        (cornersFold ev).1.filter (fun e => lowerStartsWith e.1 "under") = []) →
       extract_corners_ou ev = none) := by
  refine ⟨cornersFold_line_last ev, ?_, ?_, ?_, ?_⟩
  · intro vo vu hvo hvu
    have hne : (cornersFold ev).1.isEmpty = false := by
      cases hb : (cornersFold ev).1 with
      | nil =>
        rw [hb] at hvo
        simp [ouFind] at hvo
      | cons a l => rfl
    simp [extract_corners_ou, hne, hvo, hvu]
  · intro eo eu rest1 rest2 hmiss hfo hfu
    have hne : (cornersFold ev).1.isEmpty = false := by
      cases hb : (cornersFold ev).1 with
      | nil =>
        rw [hb] at hfo
        simp at hfo
      | cons a l => rfl
    cases ho : ouFind (ouCanonKeys (cornersFold ev).2).1 (cornersFold ev).1 with
    | none =>
      cases hu : ouFind (ouCanonKeys (cornersFold ev).2).2 (cornersFold ev).1 with
      | none => simp [extract_corners_ou, hne, ho, hu, hfo, hfu]
      | some vu => simp [extract_corners_ou, hne, ho, hu, hfo, hfu]
    | some vo =>
      cases hu : ouFind (ouCanonKeys (cornersFold ev).2).2 (cornersFold ev).1 with
      | none => simp [extract_corners_ou, hne, ho, hu, hfo, hfu]
      | some vu =>
        rcases hmiss with hm | hm
        · rw [ho] at hm; exact Option.noConfusion hm
        · rw [hu] at hm; exact Option.noConfusion hm
  · intro hb
    simp [extract_corners_ou, hb]
  · intro hmiss hempty
    cases hb : (cornersFold ev).1 with
    | nil => simp [extract_corners_ou, hb]
    | cons a l =>
      have hne : (cornersFold ev).1.isEmpty = false := by rw [hb]; rfl
      rcases hmiss with hm | hm
      · cases hu : ouFind (ouCanonKeys (cornersFold ev).2).2 (cornersFold ev).1 with
        | none =>
          rcases hempty with he | he
          · simp [extract_corners_ou, hne, hm, hu, he]
          · cases hov : (cornersFold ev).1.filter (fun e => lowerStartsWith e.1 "over") with
            | nil => simp [extract_corners_ou, hne, hm, hu, hov]
            | cons x xs => simp [extract_corners_ou, hne, hm, hu, hov, he]
        | some vu =>
          rcases hempty with he | he
          · simp [extract_corners_ou, hne, hm, hu, he]
          · cases hov : (cornersFold ev).1.filter (fun e => lowerStartsWith e.1 "over") with
            | nil => simp [extract_corners_ou, hne, hm, hu, hov]
            | cons x xs => simp [extract_corners_ou, hne, hm, hu, hov, he]
      · cases ho : ouFind (ouCanonKeys (cornersFold ev).2).1 (cornersFold ev).1 with
        | none =>
          rcases hempty with he | he
          · simp [extract_corners_ou, hne, hm, ho, he]
          · cases hov : (cornersFold ev).1.filter (fun e => lowerStartsWith e.1 "over") with
            | nil => simp [extract_corners_ou, hne, hm, ho, hov]
            | cons x xs => simp [extract_corners_ou, hne, hm, ho, hov, he]
        | some vo =>
          rcases hempty with he | he
          · simp [extract_corners_ou, hne, hm, ho, he]
          · cases hov : (cornersFold ev).1.filter (fun e => lowerStartsWith e.1 "over") with
            | nil => simp [extract_corners_ou, hne, hm, ho, hov]
            | cons x xs => simp [extract_corners_ou, hne, hm, ho, hov, he]

/-- A one-bookmaker corners event with a single line `9.5`. -/
def evW : EventJ :=
  { home_team := "H", away_team := "A",
    bookmakers := [
      { key := "b1", title := "B1",
        markets := [
          { key := "totals_corners",
            outcomes := [
              { name := "Over", price := 2, point := some "9.5" },
              { name := "Under", price := 2, point := some "9.5" }] }] }] }

/-- C5 witness: at `evW` both canonical labels are present and the extraction
returns them. -/
theorem spec_c5_corners_extraction_witness :
    ouFind (ouCanonKeys (cornersFold evW).2).1 (cornersFold evW).1 = some (2, "B1")
    ∧ ouFind (ouCanonKeys (cornersFold evW).2).2 (cornersFold evW).1 = some (2, "B1")
    ∧ extract_corners_ou evW = some ("H" ++ " vs " ++ "A",
        [((ouCanonKeys (cornersFold evW).2).1, (2 : ℚ), "B1"),
         ((ouCanonKeys (cornersFold evW).2).2, (2 : ℚ), "B1")]) := by
  have h1 : ouFind (ouCanonKeys (cornersFold evW).2).1 (cornersFold evW).1
      = some (2, "B1") := by decide
  have h2 : ouFind (ouCanonKeys (cornersFold evW).2).2 (cornersFold evW).1
      = some (2, "B1") := by decide
  exact ⟨h1, h2, (spec_c5_corners_extraction evW).2.1 (2, "B1") (2, "B1") h1 h2⟩

/-- Two bookmakers disagreeing on the corners line: `B1` posts `9.5` first,
`B2` posts `10.5` afterwards. -/
def evC : EventJ :=
  { home_team := "H", away_team := "A",
    bookmakers := [
      { key := "b1", title := "B1",
        markets := [
          { key := "totals_corners",
            outcomes := [
              { name := "Over", price := 2, point := some "9.5" },
              { name := "Under", price := 2, point := some "9.5" }] }] },
      { key := "b2", title := "B2",
        markets := [
          { key := "totals_corners",
            outcomes := [
              { name := "Over", price := 3, point := some "10.5" },
              { name := "Under", price := 3, point := some "10.5" }] }] }] }

/-- C5 counterexample: at `evC` the first encountered non-null line is `9.5`
and its labels `Over 9.5` / `Under 9.5` are present in the collected outcomes,
yet `line_seen` ends as the last line `10.5` and the extraction's canonical
labels are `Over 10.5` / `Under 10.5` — the first encountered line does not
become canonical. -/
theorem spec_c5_counterexample :
    cornerPointsSeen evC = ["9.5", "9.5", "10.5", "10.5"]
    ∧ (cornersFold evC).2 = some "10.5"
    ∧ ouFind "Over 9.5" (cornersFold evC).1 = some (2, "B1")
    ∧ ouFind "Under 9.5" (cornersFold evC).1 = some (2, "B1")
    ∧ extract_corners_ou evC
        = some ("H vs A", [("Over 10.5", (3 : ℚ), "B2"), ("Under 10.5", (3 : ℚ), "B2")]) := by
  exact ⟨by decide, by decide, by decide, by decide, by decide⟩
